import Mathlib

/-!
Verification of the Noir-to-Aleo instruction lowering backend.

This file shallowly embeds the lowering pipeline of `src/main.rs`:
the register registry (an insertion-ordered map, `IndexMap` in the source),
the type/visibility mappers, the expression and statement lowerers, and the
per-function and per-program drivers.  The source prototype aborts the
process (`todo!()` / `.unwrap()`) on every unsupported or erroneous input;
following the spec's error taxonomy (spec §7), each such abort site is
embedded as an `Except` error naming the condition the spec assigns to it.
Pure functions are embedded as Lean functions; the two mutable locals of
`compile_function` (`register_count`, `register_registry`) become an explicit
state record, extended with a ghost trace field `allocs` that records the
registers in allocation order (used only to state allocation-order
properties; it does not influence any computed output).
-/

namespace NoirToAleo

/-- Visibility annotation, `noirc_abi::AbiFEType` in the source. -/
inductive AbiFEType
  | Public
  | Private
  deriving DecidableEq

/-- Integer signedness, `noirc_frontend::Signedness`. -/
inductive Signedness
  | Signed
  | Unsigned
  deriving DecidableEq

/-- Source-level type annotation, `noirc_frontend::UnresolvedType`.
Payloads that the lowering never reads (spans, array sizes, path names,
tuple components) are omitted; the `Integer` width is kept as a `Nat`. -/
inductive UnresolvedType
  | FieldElement
  | Array
  | Integer (signedness : Signedness) (numBits : Nat)
  | Bool
  | Unit
  | Named
  | Tuple
  | Unspecified
  | Error
  deriving DecidableEq

/-- Binary operator kinds, `noirc_frontend::BinaryOpKind` (closed set). -/
inductive BinaryOpKind
  | Add
  | Subtract
  | Multiply
  | Divide
  | Equal
  | NotEqual
  | Less
  | LessEqual
  | Greater
  | GreaterEqual
  | And
  | Or
  | Xor
  | ShiftRight
  | ShiftLeft
  | Modulo
  deriving DecidableEq

/-- Expression kinds, `noirc_frontend::ExpressionKind`.  The lowering reads
only the `kind` field of sub-expressions, so `InfixE` carries the operand
kinds directly; `Path` carries the first path segment's identifier text,
which is the only part the source reads (`path.segments.first()`).
Constructor names avoid a few reserved spellings (`InfixE`, `PrefixE`). -/
inductive ExpressionKind
  | Ident
  | Literal
  | Block
  | PrefixE
  | Index
  | Call
  | MethodCall
  | Constructor
  | MemberAccess
  | Cast
  | InfixE (operator : BinaryOpKind) (lhs rhs : ExpressionKind)
  | For
  | If
  | Path (name : String)
  | Tuple
  | Error
  deriving DecidableEq

/-- Statements, `noirc_frontend::Statement`.  `Constrain` wraps the inner
expression's kind (the source reads `expression.kind` only). -/
inductive Statement
  | Let
  | Constrain (expression : ExpressionKind)
  | Expression (expression : ExpressionKind)
  | Assign
  | Semi
  | Error
  deriving DecidableEq

/-- Parameter binding patterns, `noirc_frontend::Pattern`. -/
inductive Pattern
  | Identifier (name : String)
  | Mutable
  | Tuple
  | Struct
  deriving DecidableEq

/-- A function as consumed by the lowering: name, parameter triples,
body statement list (the source's `BlockExpression(Vec<Statement>)` is
inlined as the list), return type and return visibility. -/
structure NoirFunction where
  name : String
  parameters : List (Pattern × UnresolvedType × AbiFEType)
  body : List Statement
  returnType : UnresolvedType
  returnVisibility : AbiFEType
  deriving DecidableEq

/-- The error taxonomy of spec §7 for the abort sites reachable from the
embedded core (each constructor corresponds to a `todo!()` or `.unwrap()`
site of the source). -/
inductive CompileError
  | UnboundIdentifier (name : String)
  | EmptyRegistry
  | UnsupportedType (shape : UnresolvedType)
  | UnsupportedPattern (shape : String)
  | UnsupportedExpression (kind : String)
  | UnsupportedStatement (kind : String)
  | UnsupportedConstraint (shape : String)
  deriving DecidableEq

/-- The per-function lowering state: the source's `register_count : u32`
and `register_registry : IndexMap<Option<String>, String>` locals of
`compile_function`, plus the ghost allocation trace `allocs` (registers in
allocation order; verification instrumentation only). -/
structure RegState where
  count : Nat
  registry : List (Option String × String)
  allocs : List String
  deriving DecidableEq

/-- Membership test of a key in the insertion-ordered map
(`IndexMap::contains_key`). -/
def indexMapContains : List (Option String × String) → Option String → Bool
  | [], _ => false
  | (k', _) :: rest, k => k' = k || indexMapContains rest k

/-- Lookup (`IndexMap::get`): the value of the first (and only) entry whose
key matches. -/
def indexMapGet : List (Option String × String) → Option String → Option String
  | [], _ => none
  | (k', v) :: rest, k => if k' = k then some v else indexMapGet rest k

/-- Insertion (`IndexMap::insert`): when the key is already present its
value is replaced in place, keeping the entry's position; otherwise the new
entry is appended at the end. -/
def indexMapInsert (m : List (Option String × String)) (k : Option String)
    (v : String) : List (Option String × String) :=
  if indexMapContains m k then
    m.map (fun p => if p.1 = k then (k, v) else p)
  else
    m ++ [(k, v)]

/-- Embeds `to_aleo_register`: render a register number. -/
def toAleoRegister (registerNumber : Nat) : String :=
  "r" ++ toString registerNumber

/-- Embeds `to_aleo_type`, the type mapper.  The `todo!()` arms of the source are
the `UnsupportedType` error, carrying the offending shape. -/
def toAleoType : UnresolvedType → Except CompileError String
  | .FieldElement => .ok "field"
  | .Integer .Signed numBits => .ok ("i" ++ toString numBits)
  | .Integer .Unsigned numBits => .ok ("u" ++ toString numBits)
  | t => .error (.UnsupportedType t)

/-- Embeds `to_aleo_visibility`, the visibility mapper (total). -/
def toAleoVisibility : AbiFEType → String
  | .Public => "public"
  | .Private => "private"

/-- Embeds `to_aleo_function_definition`, the function header. -/
def toAleoFunctionDefinition (functionName : String) : String :=
  "function " ++ functionName ++ ":"

/-- Modelled from the spec: the binary-operator mnemonic table of spec
§4.3.  The live `to_aleo_operator` definition is missing from the sources —
it is present only as a commented-out block (`main.rs` lines 238-257) even
though `handle_expression` (line 205) calls it — so the table below follows
the spec's closed operator table, which coincides line for line with that
commented-out block. -/
def toAleoOperator : BinaryOpKind → String
  | .Add => "add"
  | .Subtract => "sub"
  | .Multiply => "mul"
  | .Divide => "div"
  | .Equal => "is.eq"
  | .NotEqual => "is.neq"
  | .Less => "lt"
  | .LessEqual => "lte"
  | .Greater => "gt"
  | .GreaterEqual => "gte"
  | .And => "and"
  | .Or => "or"
  | .Xor => "xor"
  | .ShiftRight => "shr"
  | .ShiftLeft => "shl"
  | .Modulo => "mod"

/-- Embeds `handle_expression`: it lowers an expression, returning the string the
source returns (for a `Path`, the resolved register; for an infix, the full
formatted instruction line) together with the updated state.  The
`todo!()` arms are `UnsupportedExpression`; the `.unwrap()` on the registry
lookup is `UnboundIdentifier`. -/
def handleExpression : ExpressionKind → RegState →
    Except CompileError (String × RegState)
  | .Ident, _ => .error (.UnsupportedExpression "Ident")
  | .Literal, _ => .error (.UnsupportedExpression "Literal")
  | .Block, _ => .error (.UnsupportedExpression "Block")
  | .PrefixE, _ => .error (.UnsupportedExpression "Prefix")
  | .Index, _ => .error (.UnsupportedExpression "Index")
  | .Call, _ => .error (.UnsupportedExpression "Call")
  | .MethodCall, _ => .error (.UnsupportedExpression "MethodCall")
  | .Constructor, _ => .error (.UnsupportedExpression "Constructor")
  | .MemberAccess, _ => .error (.UnsupportedExpression "MemberAccess")
  | .Cast, _ => .error (.UnsupportedExpression "Cast")
  | .InfixE operator lhs rhs, s => do
    let (leftOperand, s1) ← handleExpression lhs s
    let (rightOperand, s2) ← handleExpression rhs s1
    let operatorText := toAleoOperator operator
    let destinationRegister := toAleoRegister s2.count
    .ok ("\t" ++ operatorText ++ " " ++ leftOperand ++ " " ++ rightOperand ++
          " into " ++ destinationRegister ++ ";\n",
        ⟨s2.count + 1,
         indexMapInsert s2.registry none destinationRegister,
         s2.allocs ++ [destinationRegister]⟩)
  | .For, _ => .error (.UnsupportedExpression "For")
  | .If, _ => .error (.UnsupportedExpression "If")
  | .Path name, s =>
    match indexMapGet s.registry (some name) with
    | some register => .ok (register, s)
    | none => .error (.UnboundIdentifier name)
  | .Tuple, _ => .error (.UnsupportedExpression "Tuple")
  | .Error, _ => .error (.UnsupportedExpression "Error")

/-- Embeds `to_aleo_operation_line`, the statement lowerer.  For a constraint
statement both operands are lowered (in order) before the operator is
examined; only equality and inequality are accepted, mapped to the
`assert.*` mnemonics; the `todo!()` arms are `UnsupportedConstraint` /
`UnsupportedStatement`. -/
def toAleoOperationLine : Statement → RegState →
    Except CompileError (String × RegState)
  | .Let, _ => .error (.UnsupportedStatement "Let")
  | .Constrain expression, s =>
    match expression with
    | .InfixE operator lhs rhs => do
      let (leftOperand, s1) ← handleExpression lhs s
      let (rightOperand, s2) ← handleExpression rhs s1
      match operator with
      | .Equal =>
        .ok ("\tassert.eq " ++ leftOperand ++ " " ++ rightOperand ++ ";\n", s2)
      | .NotEqual =>
        .ok ("\tassert.neq " ++ leftOperand ++ " " ++ rightOperand ++ ";\n", s2)
      | _ => .error (.UnsupportedConstraint "operator")
    | _ => .error (.UnsupportedConstraint "expression")
  | .Expression expression, s => handleExpression expression s
  | .Assign, _ => .error (.UnsupportedStatement "Assign")
  | .Semi, _ => .error (.UnsupportedStatement "Semi")
  | .Error, _ => .error (.UnsupportedStatement "Error")

/-- Embeds `to_aleo_input_line`: it lowers one parameter; a simple identifier pattern
allocates the next register under the parameter's name and renders the
`input` line; other patterns are `UnsupportedPattern`. -/
def toAleoInputLine (parameter : Pattern) (unresolvedType : UnresolvedType)
    (visibility : AbiFEType) (s : RegState) :
    Except CompileError (String × RegState) :=
  match parameter with
  | .Identifier identName => do
    let register := toAleoRegister s.count
    let registerType ← toAleoType unresolvedType
    let visibilityText := toAleoVisibility visibility
    .ok ("\tinput " ++ register ++ " as " ++ registerType ++ "." ++
          visibilityText ++ ";\n",
        ⟨s.count + 1,
         indexMapInsert s.registry (some identName) register,
         s.allocs ++ [register]⟩)
  | .Mutable => .error (.UnsupportedPattern "Mutable")
  | .Tuple => .error (.UnsupportedPattern "Tuple")
  | .Struct => .error (.UnsupportedPattern "Struct")

/-- The input loop of `compile_function`: one `input` line per parameter,
in declaration order, accumulating the emitted text. -/
def compileInputs : List (Pattern × UnresolvedType × AbiFEType) → RegState →
    Except CompileError (String × RegState)
  | [], s => .ok ("", s)
  | (parameter, unresolvedType, visibility) :: rest, s => do
    let (line, s1) ← toAleoInputLine parameter unresolvedType visibility s
    let (restText, s2) ← compileInputs rest s1
    .ok (line ++ restText, s2)

/-- The body loop of `compile_function`: the source reverses the statement
vector and then repeatedly pops from its back (`while let Some(statement) =
body.pop()`), appending each statement's line to the buffer.  This function
is that pop loop, taken on an already-reversed list. -/
def compileStatementsPop (body : List Statement) (s : RegState) (acc : String) :
    Except CompileError (String × RegState) :=
  if h : body = [] then
    .ok (acc, s)
  else do
    let (line, s1) ← toAleoOperationLine (body.getLast h) s
    compileStatementsPop body.dropLast s1 (acc ++ line)
termination_by body.length
decreasing_by
  simp only [List.length_dropLast]
  exact Nat.sub_lt (List.length_pos.mpr h) Nat.one_pos

/-- Reference loop following the spec's wording (spec §4.5 step 3):
statements are taken off the front of the original sequence one at a time,
i.e. processed in source order. -/
def compileStatementsFwd : List Statement → RegState → String →
    Except CompileError (String × RegState)
  | [], s, acc => .ok (acc, s)
  | statement :: rest, s, acc => do
    let (line, s1) ← toAleoOperationLine statement s
    compileStatementsFwd rest s1 (acc ++ line)

/-- Embeds `compile_function`: header, inputs, body (reverse-then-pop loop), then
the single `output` line taken from the registry's last entry; the
`.unwrap()` on an empty registry is `EmptyRegistry`.  The return type is
mapped (and can fail) before the registry is consulted, as in the source.
Besides the emitted text, the final lowering state is returned so that
properties of the registry and of the allocation trace can be stated. -/
def compileFunction (f : NoirFunction) :
    Except CompileError (String × RegState) := do
  let (inputText, s1) ← compileInputs f.parameters ⟨0, [], []⟩
  let (bodyText, s2) ← compileStatementsPop f.body.reverse s1 ""
  let outputType ← toAleoType f.returnType
  match s2.registry.getLast? with
  | none => .error .EmptyRegistry
  | some (_, outputRegister) =>
    .ok (toAleoFunctionDefinition f.name ++ "\n" ++ inputText ++ bodyText ++
          "\toutput " ++ outputRegister ++ " as " ++ outputType ++ "." ++
          toAleoVisibility f.returnVisibility ++ ";\n", s2)

/-- The function loop of `compile_program`: each function's text in
declaration order. -/
def compileFunctions : List NoirFunction → Except CompileError String
  | [] => .ok ""
  | f :: rest => do
    let (text, _) ← compileFunction f
    let restText ← compileFunctions rest
    .ok (text ++ restText)

/-- Embeds `compile_program`: the program header line, a blank line, then every
function's lowered text. -/
def compileProgram (programName : String) (functions : List NoirFunction) :
    Except CompileError String := do
  let functionsText ← compileFunctions functions
  .ok ("program " ++ programName ++ ".aleo;" ++ "\n" ++ "\n" ++ functionsText)

/-! ### Reduction helpers for the Except monad -/

/-- Bind on a success reduces to the continuation. -/
theorem exceptBind_ok {α β ε : Type} (a : α) (f : α → Except ε β) :
    (Except.ok a >>= f) = f a := rfl

/-- Bind on an error short-circuits. -/
theorem exceptBind_err {α β ε : Type} (e : ε) (f : α → Except ε β) :
    ((Except.error e : Except ε α) >>= f) = Except.error e := rfl

/-! ### The pop loop processes statements in source order -/

/-- Unfolding of the pop loop on the empty list. -/
theorem compileStatementsPop_nil (s : RegState) (acc : String) :
    compileStatementsPop [] s acc = .ok (acc, s) := by
  rw [compileStatementsPop]
  simp

/-- Unfolding of the pop loop: popping from the back takes the appended
last element first. -/
theorem compileStatementsPop_concat (l : List Statement) (x : Statement)
    (s : RegState) (acc : String) :
    compileStatementsPop (l ++ [x]) s acc =
      (do
        let (line, s1) ← toAleoOperationLine x s
        compileStatementsPop l s1 (acc ++ line)) := by
  rw [compileStatementsPop]
  simp

/-- The source's reverse-then-pop-from-the-back loop processes the original
statement list front first, i.e. in source order. -/
theorem compileStatementsPop_reverse (body : List Statement) (s : RegState)
    (acc : String) :
    compileStatementsPop body.reverse s acc = compileStatementsFwd body s acc := by
  induction body generalizing s acc with
  | nil =>
    simp [compileStatementsPop_nil, compileStatementsFwd]
  | cons statement rest ih =>
    rw [List.reverse_cons, compileStatementsPop_concat]
    cases hop : toAleoOperationLine statement s with
    | error e => simp only [compileStatementsFwd, hop]; rfl
    | ok p =>
      obtain ⟨line, s1⟩ := p
      simp [compileStatementsFwd, hop, Except.bind, ih]

/-- A variant of `compileFunction` with the body loop written front first; equal to
`compileFunction` by `compileStatementsPop_reverse`, and convenient for
computation and induction. -/
def compileFunctionFwd (f : NoirFunction) :
    Except CompileError (String × RegState) := do
  let (inputText, s1) ← compileInputs f.parameters ⟨0, [], []⟩
  let (bodyText, s2) ← compileStatementsFwd f.body s1 ""
  let outputType ← toAleoType f.returnType
  match s2.registry.getLast? with
  | none => .error .EmptyRegistry
  | some (_, outputRegister) =>
    .ok (toAleoFunctionDefinition f.name ++ "\n" ++ inputText ++ bodyText ++
          "\toutput " ++ outputRegister ++ " as " ++ outputType ++ "." ++
          toAleoVisibility f.returnVisibility ++ ";\n", s2)

/-- The two function-lowering presentations agree. -/
theorem compileFunction_eq_fwd (f : NoirFunction) :
    compileFunction f = compileFunctionFwd f := by
  simp only [compileFunction, compileFunctionFwd, compileStatementsPop_reverse]

/-! ### The end-to-end `add` scenario -/

/-- The function `add(a: u32, b: u32) -> u32 { a + b }` with both
parameters private and return visibility private, as the frontend delivers
it (see `tests::test_add`). -/
def addFunction : NoirFunction where
  name := "add"
  parameters :=
    [(.Identifier "a", .Integer .Unsigned 32, .Private),
     (.Identifier "b", .Integer .Unsigned 32, .Private)]
  body := [.Expression (.InfixE .Add (.Path "a") (.Path "b"))]
  returnType := .Integer .Unsigned 32
  returnVisibility := .Private

/-- The final lowering state of `addFunction`: three allocations, the
anonymous intermediate appended after the two named parameters. -/
def addFinalState : RegState where
  count := 3
  registry := [(some "a", "r0"), (some "b", "r1"), (none, "r2")]
  allocs := ["r0", "r1", "r2"]

/-- Evaluation of the lowering on `addFunction` (shared by several
witnesses). -/
theorem addFunction_eval :
    compileFunction addFunction =
      .ok ("function add:\n" ++
            "\tinput r0 as u32.private;\n" ++
            "\tinput r1 as u32.private;\n" ++
            "\tadd r0 r1 into r2;\n" ++
            "\toutput r2 as u32.private;\n", addFinalState) := by
  rw [compileFunction_eq_fwd]
  rfl

/-- C1: lowering `add(a: u32, b: u32) -> u32 { a + b }` with both
parameters private and return visibility private produces exactly the
header and the four body lines `input r0 as u32.private;`,
`input r1 as u32.private;`, `add r0 r1 into r2;`,
`output r2 as u32.private;`, each tab-indented and newline-terminated; the
freshly allocated destination register `r2` of the single `add` instruction
is the register referenced by the `output` line. -/
theorem C1_add_function_end_to_end :
    compileFunction addFunction =
      .ok ("function add:\n" ++
            ("\tinput r0 as u32.private;\n" ++
             "\tinput r1 as u32.private;\n" ++
             "\tadd r0 r1 into r2;\n" ++
             "\toutput r2 as u32.private;\n"), addFinalState) := by
  rw [compileFunction_eq_fwd]
  rfl

/-- C3: the type mapper sends the field-element type to `field`, a signed
integer of width n to `i<n>`, an unsigned integer of width n to `u<n>`, and
fails with `UnsupportedType` carrying the offending shape on every other
type shape; the visibility mapper is total, sending Public to `public` and
Private to `private`. -/
theorem C3_type_and_visibility_mapping :
    toAleoType .FieldElement = .ok "field" ∧
    (∀ n : Nat, toAleoType (.Integer .Signed n) = .ok ("i" ++ toString n)) ∧
    (∀ n : Nat, toAleoType (.Integer .Unsigned n) = .ok ("u" ++ toString n)) ∧
    toAleoType .Array = .error (.UnsupportedType .Array) ∧
    toAleoType .Bool = .error (.UnsupportedType .Bool) ∧
    toAleoType .Tuple = .error (.UnsupportedType .Tuple) ∧
    toAleoType .Named = .error (.UnsupportedType .Named) ∧
    toAleoType .Unit = .error (.UnsupportedType .Unit) ∧
    toAleoType .Unspecified = .error (.UnsupportedType .Unspecified) ∧
    toAleoType .Error = .error (.UnsupportedType .Error) ∧
    toAleoVisibility .Public = "public" ∧
    toAleoVisibility .Private = "private" :=
  ⟨rfl, fun _ => rfl, fun _ => rfl, rfl, rfl, rfl, rfl, rfl, rfl, rfl, rfl, rfl⟩

/-- C4: a constraint statement over a top-level infix equality (resp.
inequality) with both operands bound identifier references emits exactly
one `assert.eq` (resp. `assert.neq`) line referencing the two operands'
registers, with no intermediate instruction line and no state change, and
the constraint path never uses the `is.eq`/`is.neq` mnemonics (all other
operators fail instead of emitting anything). -/
theorem C4_constraint_assert_lines (s : RegState) (l r rl rr : String)
    (hl : indexMapGet s.registry (some l) = some rl)
    (hr : indexMapGet s.registry (some r) = some rr) :
    toAleoOperationLine (.Constrain (.InfixE .Equal (.Path l) (.Path r))) s =
      .ok ("\tassert.eq " ++ rl ++ " " ++ rr ++ ";\n", s) ∧
    toAleoOperationLine (.Constrain (.InfixE .NotEqual (.Path l) (.Path r))) s =
      .ok ("\tassert.neq " ++ rl ++ " " ++ rr ++ ";\n", s) ∧
    (∀ operator : BinaryOpKind, operator ≠ .Equal → operator ≠ .NotEqual →
      toAleoOperationLine (.Constrain (.InfixE operator (.Path l) (.Path r))) s =
        .error (.UnsupportedConstraint "operator")) := by
  refine ⟨?_, ?_, ?_⟩
  · simp [toAleoOperationLine, handleExpression, hl, hr, exceptBind_ok]
  · simp [toAleoOperationLine, handleExpression, hl, hr, exceptBind_ok]
  · intro operator h1 h2
    cases operator <;>
      first
        | exact absurd rfl h1
        | exact absurd rfl h2
        | simp [toAleoOperationLine, handleExpression, hl, hr, exceptBind_ok]

/-- Witness for C4 at a concrete state binding `a ↦ r0` and `b ↦ r1`. -/
theorem C4_constraint_assert_lines_witness :
    toAleoOperationLine
        (.Constrain (.InfixE .Equal (.Path "a") (.Path "b"))) addFinalState =
      .ok ("\tassert.eq r0 r1;\n", addFinalState) :=
  (C4_constraint_assert_lines addFinalState "a" "b" "r0" "r1" rfl rfl).1

/-- A state binding the three parameters `a ↦ r0`, `b ↦ r1`, `c ↦ r2`,
used to exercise a nested infix expression. -/
def nestedState : RegState where
  count := 3
  registry := [(some "a", "r0"), (some "b", "r1"), (some "c", "r2")]
  allocs := ["r0", "r1", "r2"]

/-- C5: evaluating the expression lowerer on the nested infix expression
`(a + b) + c` (with `a`, `b`, `c` bound to `r0`, `r1`, `r2`).  The claim
says the recursive lowering of the left operand returns its destination
register `r3` so that the outer instruction would read
`add r3 r2 into r4;`; the code instead returns the inner instruction's
entire line text, which is spliced verbatim into the outer instruction's
operand slot, yielding malformed output. -/
theorem C5_nested_infix_splices_inner_line :
    handleExpression
        (.InfixE .Add (.InfixE .Add (.Path "a") (.Path "b")) (.Path "c"))
        nestedState =
      .ok ("\tadd \tadd r0 r1 into r3;\n r2 into r4;\n",
        ⟨5,
         [(some "a", "r0"), (some "b", "r1"), (some "c", "r2"), (none, "r4")],
         ["r0", "r1", "r2", "r3", "r4"]⟩) ∧
    "\tadd \tadd r0 r1 into r3;\n r2 into r4;\n" ≠ "\tadd r3 r2 into r4;\n" :=
  ⟨rfl, by decide⟩

/-- C6: the binary-operator mnemonic table: add/subtract/multiply/divide
map to `add`/`sub`/`mul`/`div`; equality/inequality (as ordinary
expressions) to `is.eq`/`is.neq`; the relational operators to
`lt`/`lte`/`gt`/`gte`; and/or/xor to `and`/`or`/`xor`; the shifts to
`shl`/`shr`; modulo to `mod`; and every operator of the closed set lands in
exactly this table. -/
theorem C6_operator_mnemonic_table :
    toAleoOperator .Add = "add" ∧
    toAleoOperator .Subtract = "sub" ∧
    toAleoOperator .Multiply = "mul" ∧
    toAleoOperator .Divide = "div" ∧
    toAleoOperator .Equal = "is.eq" ∧
    toAleoOperator .NotEqual = "is.neq" ∧
    toAleoOperator .Less = "lt" ∧
    toAleoOperator .LessEqual = "lte" ∧
    toAleoOperator .Greater = "gt" ∧
    toAleoOperator .GreaterEqual = "gte" ∧
    toAleoOperator .And = "and" ∧
    toAleoOperator .Or = "or" ∧
    toAleoOperator .Xor = "xor" ∧
    toAleoOperator .ShiftLeft = "shl" ∧
    toAleoOperator .ShiftRight = "shr" ∧
    toAleoOperator .Modulo = "mod" ∧
    (∀ operator : BinaryOpKind,
      toAleoOperator operator ∈
        ["add", "sub", "mul", "div", "is.eq", "is.neq", "lt", "lte", "gt",
         "gte", "and", "or", "xor", "shl", "shr", "mod"]) :=
  ⟨rfl, rfl, rfl, rfl, rfl, rfl, rfl, rfl, rfl, rfl, rfl, rfl, rfl, rfl, rfl,
   rfl, fun operator => by cases operator <;> decide⟩

/-- A function whose body is the single bare identifier statement `a`. -/
def bareIdentFunction : NoirFunction where
  name := "f"
  parameters := [(.Identifier "a", .Integer .Unsigned 32, .Private)]
  body := [.Expression (.Path "a")]
  returnType := .Integer .Unsigned 32
  returnVisibility := .Private

/-- Counterexample to C7: lowering a function whose body is the bare
identifier statement `a` appends the resolved register text `r0` verbatim
to the output buffer (between the input line and the output line), so the
statement's lowering does not contribute nothing to the buffer. -/
theorem C7_counterexample_bare_ident_contributes :
    compileFunction bareIdentFunction =
      .ok ("function f:\n\tinput r0 as u32.private;\nr0\toutput r0 as u32.private;\n",
        ⟨1, [(some "a", "r0")], ["r0"]⟩) ∧
    "function f:\n\tinput r0 as u32.private;\nr0\toutput r0 as u32.private;\n" ≠
      "function f:\n\tinput r0 as u32.private;\n\toutput r0 as u32.private;\n" := by
  refine ⟨?_, by decide⟩
  rw [compileFunction_eq_fwd]
  rfl

/-- C7 (amended): a plain expression statement that is a bare bound
identifier reference emits no instruction line and allocates nothing (the
state is unchanged), but its contribution to the output buffer is the
resolved register text itself, appended verbatim rather than discarded. -/
theorem C7_bare_ident_statement_contribution (s : RegState)
    (name register : String)
    (h : indexMapGet s.registry (some name) = some register) :
    toAleoOperationLine (.Expression (.Path name)) s = .ok (register, s) := by
  simp [toAleoOperationLine, handleExpression, h]

/-- Witness for the amended C7 at a concrete bound identifier. -/
theorem C7_bare_ident_statement_contribution_witness :
    toAleoOperationLine (.Expression (.Path "a")) addFinalState =
      .ok ("r0", addFinalState) :=
  C7_bare_ident_statement_contribution addFinalState "a" "r0" rfl

/-- A function whose body references the never-allocated identifier `x`. -/
def unboundFunction : NoirFunction where
  name := "f"
  parameters := []
  body := [.Expression (.Path "x")]
  returnType := .Integer .Unsigned 32
  returnVisibility := .Private

/-- C9: an identifier reference whose name was never allocated in the
current function's registry fails with `UnboundIdentifier` (no register is
returned), and a program containing a failing function lowers to an error
carrying no output text, so no partial output is produced or persisted. -/
theorem C9_unbound_identifier :
    (∀ (s : RegState) (name : String),
      indexMapGet s.registry (some name) = none →
      handleExpression (.Path name) s = .error (.UnboundIdentifier name)) ∧
    (∀ (programName : String) (f : NoirFunction) (rest : List NoirFunction)
        (e : CompileError),
      compileFunction f = .error e →
      compileProgram programName (f :: rest) = .error e) := by
  constructor
  · intro s name h
    simp [handleExpression, h]
  · intro programName f rest e h
    simp only [compileProgram, compileFunctions, h]
    rfl

/-- Witness for C9: the reference to the unbound `x` errors, and the
single-function program around it yields no output text. -/
theorem C9_unbound_identifier_witness :
    handleExpression (.Path "x") ⟨0, [], []⟩ =
      .error (.UnboundIdentifier "x") ∧
    compileProgram "main.nr" [unboundFunction] =
      .error (.UnboundIdentifier "x") :=
  ⟨C9_unbound_identifier.1 ⟨0, [], []⟩ "x" rfl,
   C9_unbound_identifier.2 "main.nr" unboundFunction [] (.UnboundIdentifier "x")
     (by rw [compileFunction_eq_fwd]; rfl)⟩

/-! ### Ordered-map lemmas -/

/-- Absence of a key is absence from every entry. -/
theorem indexMapContains_eq_false_iff (m : List (Option String × String))
    (k : Option String) :
    indexMapContains m k = false ↔ ∀ p ∈ m, p.1 ≠ k := by
  induction m with
  | nil => simp [indexMapContains]
  | cons hd tl ih =>
    obtain ⟨k', v⟩ := hd
    simp only [indexMapContains, Bool.or_eq_false_iff, decide_eq_false_iff_not,
      List.mem_cons, ih]
    constructor
    · rintro ⟨h1, h2⟩ p (rfl | hp)
      · exact h1
      · exact h2 p hp
    · intro h
      exact ⟨h (k', v) (Or.inl rfl), fun p hp => h p (Or.inr hp)⟩

/-- A key appended at the end is contained. -/
theorem indexMapContains_append_self (m : List (Option String × String))
    (k : Option String) (v : String) :
    indexMapContains (m ++ [(k, v)]) k = true := by
  induction m with
  | nil => simp [indexMapContains]
  | cons hd tl ih =>
    obtain ⟨k', v'⟩ := hd
    simp [indexMapContains, ih]

/-- Inserting an absent key appends the new entry at the end. -/
theorem indexMapInsert_of_not_contains (m : List (Option String × String))
    (k : Option String) (v : String) (h : indexMapContains m k = false) :
    indexMapInsert m k v = m ++ [(k, v)] := by
  simp [indexMapInsert, h]

/-- Replacing the anonymous value touches no named entry. -/
theorem map_replace_none_of_no_none (m0 : List (Option String × String))
    (v : String) (h : ∀ p ∈ m0, p.1 ≠ none) :
    m0.map (fun p => if p.1 = none then ((none : Option String), v) else p)
      = m0 := by
  induction m0 with
  | nil => rfl
  | cons hd tl ih =>
    simp only [List.map_cons]
    rw [if_neg (h hd (List.mem_cons_self _ _)),
      ih (fun p hp => h p (List.mem_cons_of_mem _ hp))]

/-- When the anonymous key is present and sits (as it always does during a
body lowering) in the final position, inserting under the anonymous key
replaces that entry's value in place, preserving its position and all other
entries. -/
theorem indexMapInsert_anon_in_place (m : List (Option String × String))
    (v : String) (hA : ∀ p ∈ m.dropLast, p.1 ≠ none)
    (hc : indexMapContains m none = true) :
    ∃ (m0 : List (Option String × String)) (w : String),
      m = m0 ++ [(none, w)] ∧
      indexMapInsert m none v = m0 ++ [(none, v)] := by
  have hne : m ≠ [] := by
    rintro rfl
    simp [indexMapContains] at hc
  have hdecomp := List.dropLast_append_getLast hne
  have hlast : (m.getLast hne).1 = none := by
    by_contra hno
    have : indexMapContains m none = false := by
      rw [indexMapContains_eq_false_iff]
      intro p hp
      rw [← hdecomp] at hp
      rcases List.mem_append.mp hp with h1 | h2
      · exact hA p h1
      · rw [List.mem_singleton.mp h2]
        exact hno
    rw [this] at hc
    exact Bool.false_ne_true hc
  refine ⟨m.dropLast, (m.getLast hne).2, ?_, ?_⟩
  · conv_lhs => rw [← hdecomp]
    congr 1
    rw [← hlast]
  · rw [indexMapInsert, if_pos hc]
    conv_lhs => rw [← hdecomp]
    rw [List.map_append, map_replace_none_of_no_none m.dropLast v hA]
    simp [hlast]

/-! ### Lowering-state invariants -/

/-- The ghost allocation trace lists exactly the registers `r0 … r(count-1)`
in order: the n-th allocation produced `r<n-1>`. -/
def GoodTrace (s : RegState) : Prop :=
  s.allocs = (List.range s.count).map toAleoRegister

/-- Every entry other than the final one is named: the anonymous key, when
present, is the last entry. -/
def AnonLast (s : RegState) : Prop :=
  ∀ p ∈ s.registry.dropLast, p.1 ≠ none

/-- The registry's last entry holds the most recently allocated register. -/
def LastNewest (s : RegState) : Prop :=
  s.registry.getLast?.map Prod.snd = s.allocs.getLast?

/-- The registry holds one entry per named parameter, plus at most one
anonymous entry. -/
def SizeInv (k : Nat) (s : RegState) : Prop :=
  (s.registry.length = k ∧ indexMapContains s.registry none = false) ∨
  (s.registry.length = k + 1 ∧ indexMapContains s.registry none = true)

/-- The combined invariant maintained throughout a body lowering, for a
function with `k` (distinctly named) parameters. -/
def BodyInv (k : Nat) (s : RegState) : Prop :=
  GoodTrace s ∧ AnonLast s ∧ LastNewest s ∧ SizeInv k s

/-- One anonymous allocation step (the registry insert under the anonymous
key together with the counter bump and trace append of
`handleExpression`'s infix arm) preserves the body invariant. -/
theorem anonAlloc_bodyInv (k : Nat) (s : RegState) (hI : BodyInv k s) :
    BodyInv k
      ⟨s.count + 1,
       indexMapInsert s.registry none (toAleoRegister s.count),
       s.allocs ++ [toAleoRegister s.count]⟩ := by
  obtain ⟨hT, hA, hL, hS⟩ := hI
  cases hc : indexMapContains s.registry none with
  | false =>
    rw [indexMapInsert_of_not_contains _ _ _ hc]
    have hnone : ∀ p ∈ s.registry, p.1 ≠ none :=
      (indexMapContains_eq_false_iff _ _).mp hc
    refine ⟨?_, ?_, ?_, ?_⟩
    · simp only [GoodTrace, List.range_succ, List.map_append, List.map_cons,
        List.map_nil]
      rw [← hT]
    · intro p hp
      rw [List.dropLast_concat] at hp
      exact hnone p hp
    · simp [LastNewest, List.getLast?_concat]
    · right
      constructor
      · rcases hS with ⟨h1, _⟩ | ⟨_, h2⟩
        · simp [h1]
        · rw [h2] at hc
          exact absurd hc (by simp)
      · exact indexMapContains_append_self _ _ _
  | true =>
    obtain ⟨m0, w, hm, hins⟩ := indexMapInsert_anon_in_place s.registry
      (toAleoRegister s.count) hA hc
    rw [hins]
    have hm0 : ∀ p ∈ m0, p.1 ≠ none := by
      intro p hp
      have : p ∈ s.registry.dropLast := by
        rw [hm, List.dropLast_concat]
        exact hp
      exact hA p this
    refine ⟨?_, ?_, ?_, ?_⟩
    · simp only [GoodTrace, List.range_succ, List.map_append, List.map_cons,
        List.map_nil]
      rw [← hT]
    · intro p hp
      rw [List.dropLast_concat] at hp
      exact hm0 p hp
    · simp [LastNewest, List.getLast?_concat]
    · right
      constructor
      · rcases hS with ⟨_, h1⟩ | ⟨h2, _⟩
        · rw [h1] at hc
          exact absurd hc (by simp)
        · rw [hm] at h2
          simp only [List.length_append, List.length_singleton] at h2 ⊢
          exact h2
      · exact indexMapContains_append_self _ _ _

/-! ### Preservation through the expression and statement lowerers

The only state change the expression lowerer ever performs is the
anonymous allocation step of the infix arm, so any predicate closed under
that step is preserved by the whole body lowering. -/

/-- The anonymous allocation step applied to a state. -/
def anonAllocStep (s : RegState) : RegState :=
  ⟨s.count + 1,
   indexMapInsert s.registry none (toAleoRegister s.count),
   s.allocs ++ [toAleoRegister s.count]⟩

/-- A predicate closed under anonymous allocation is preserved by
`handleExpression`. -/
theorem handleExpression_preserves (P : RegState → Prop)
    (hstep : ∀ s, P s → P (anonAllocStep s)) (e : ExpressionKind) :
    ∀ (s : RegState) (r : String) (s' : RegState),
      handleExpression e s = .ok (r, s') → P s → P s' := by
  induction e with
  | InfixE operator lhs rhs ihl ihr =>
    intro s r s' h hP
    simp only [handleExpression] at h
    cases hle : handleExpression lhs s with
    | error e1 => simp [hle, exceptBind_err] at h
    | ok p =>
      obtain ⟨l1, s1⟩ := p
      simp only [hle, exceptBind_ok] at h
      cases hre : handleExpression rhs s1 with
      | error e2 => simp [hre, exceptBind_err] at h
      | ok q =>
        obtain ⟨r1, s2⟩ := q
        simp only [hre, exceptBind_ok, Except.ok.injEq, Prod.mk.injEq] at h
        obtain ⟨-, hs'⟩ := h
        rw [← hs']
        exact hstep s2 (ihr s1 r1 s2 hre (ihl s l1 s1 hle hP))
  | Path name =>
    intro s r s' h hP
    simp only [handleExpression] at h
    cases hg : indexMapGet s.registry (some name) with
    | none => simp [hg] at h
    | some register =>
      simp only [hg, Except.ok.injEq, Prod.mk.injEq] at h
      obtain ⟨-, hs'⟩ := h
      rw [← hs']
      exact hP
  | Ident => intro s r s' h hP; simp [handleExpression] at h
  | Literal => intro s r s' h hP; simp [handleExpression] at h
  | Block => intro s r s' h hP; simp [handleExpression] at h
  | PrefixE => intro s r s' h hP; simp [handleExpression] at h
  | Index => intro s r s' h hP; simp [handleExpression] at h
  | Call => intro s r s' h hP; simp [handleExpression] at h
  | MethodCall => intro s r s' h hP; simp [handleExpression] at h
  | Constructor => intro s r s' h hP; simp [handleExpression] at h
  | MemberAccess => intro s r s' h hP; simp [handleExpression] at h
  | Cast => intro s r s' h hP; simp [handleExpression] at h
  | For => intro s r s' h hP; simp [handleExpression] at h
  | If => intro s r s' h hP; simp [handleExpression] at h
  | Tuple => intro s r s' h hP; simp [handleExpression] at h
  | Error => intro s r s' h hP; simp [handleExpression] at h

/-- A predicate closed under anonymous allocation is preserved by the
statement lowerer. -/
theorem toAleoOperationLine_preserves (P : RegState → Prop)
    (hstep : ∀ s, P s → P (anonAllocStep s)) (st : Statement)
    (s : RegState) (line : String) (s' : RegState)
    (h : toAleoOperationLine st s = .ok (line, s')) (hP : P s) : P s' := by
  cases st with
  | Constrain e =>
    cases e with
    | InfixE operator lhs rhs =>
      simp only [toAleoOperationLine] at h
      cases hle : handleExpression lhs s with
      | error e1 => simp [hle, exceptBind_err] at h
      | ok p =>
        obtain ⟨l1, s1⟩ := p
        simp only [hle, exceptBind_ok] at h
        cases hre : handleExpression rhs s1 with
        | error e2 => simp [hre, exceptBind_err] at h
        | ok q =>
          obtain ⟨r1, s2⟩ := q
          simp only [hre, exceptBind_ok] at h
          have hs2 : P s2 :=
            handleExpression_preserves P hstep rhs s1 r1 s2 hre
              (handleExpression_preserves P hstep lhs s l1 s1 hle hP)
          cases operator <;> simp_all
    | Ident => simp [toAleoOperationLine] at h
    | Literal => simp [toAleoOperationLine] at h
    | Block => simp [toAleoOperationLine] at h
    | PrefixE => simp [toAleoOperationLine] at h
    | Index => simp [toAleoOperationLine] at h
    | Call => simp [toAleoOperationLine] at h
    | MethodCall => simp [toAleoOperationLine] at h
    | Constructor => simp [toAleoOperationLine] at h
    | MemberAccess => simp [toAleoOperationLine] at h
    | Cast => simp [toAleoOperationLine] at h
    | For => simp [toAleoOperationLine] at h
    | If => simp [toAleoOperationLine] at h
    | Path name => simp [toAleoOperationLine] at h
    | Tuple => simp [toAleoOperationLine] at h
    | Error => simp [toAleoOperationLine] at h
  | Expression e =>
    exact handleExpression_preserves P hstep e s line s' h hP
  | Let => simp [toAleoOperationLine] at h
  | Assign => simp [toAleoOperationLine] at h
  | Semi => simp [toAleoOperationLine] at h
  | Error => simp [toAleoOperationLine] at h

/-- A predicate closed under anonymous allocation is preserved by the body
loop. -/
theorem compileStatementsFwd_preserves (P : RegState → Prop)
    (hstep : ∀ s, P s → P (anonAllocStep s)) :
    ∀ (body : List Statement) (s : RegState) (acc text : String)
      (s' : RegState),
      compileStatementsFwd body s acc = .ok (text, s') → P s → P s' := by
  intro body
  induction body with
  | nil =>
    intro s acc text s' h hP
    simp only [compileStatementsFwd, Except.ok.injEq, Prod.mk.injEq] at h
    rw [← h.2]
    exact hP
  | cons statement rest ih =>
    intro s acc text s' h hP
    simp only [compileStatementsFwd] at h
    cases hop : toAleoOperationLine statement s with
    | error e1 => simp [hop, exceptBind_err] at h
    | ok p =>
      obtain ⟨line, s1⟩ := p
      simp only [hop, exceptBind_ok] at h
      exact ih s1 (acc ++ line) text s' h
        (toAleoOperationLine_preserves P hstep statement s line s1 hop hP)

/-! ### The input phase -/

/-- The anonymous allocation step preserves the allocation-trace
invariant. -/
theorem anonAllocStep_goodTrace (s : RegState) (hT : GoodTrace s) :
    GoodTrace (anonAllocStep s) := by
  simp only [GoodTrace, anonAllocStep, List.range_succ, List.map_append,
    List.map_cons, List.map_nil]
  rw [← hT]

/-- Lowering one input line preserves the allocation-trace invariant. -/
theorem toAleoInputLine_goodTrace (parameter : Pattern)
    (unresolvedType : UnresolvedType) (visibility : AbiFEType) (s : RegState)
    (line : String) (s' : RegState)
    (h : toAleoInputLine parameter unresolvedType visibility s = .ok (line, s'))
    (hT : GoodTrace s) : GoodTrace s' := by
  cases parameter with
  | Identifier n =>
    simp only [toAleoInputLine] at h
    cases ht : toAleoType unresolvedType with
    | error e1 => simp [ht, exceptBind_err] at h
    | ok typeText =>
      simp only [ht, exceptBind_ok, Except.ok.injEq, Prod.mk.injEq] at h
      rw [← h.2]
      simp only [GoodTrace, List.range_succ, List.map_append, List.map_cons,
        List.map_nil]
      rw [← hT]
  | Mutable => simp [toAleoInputLine] at h
  | Tuple => simp [toAleoInputLine] at h
  | Struct => simp [toAleoInputLine] at h

/-- The input loop preserves the allocation-trace invariant. -/
theorem compileInputs_goodTrace :
    ∀ (ps : List (Pattern × UnresolvedType × AbiFEType)) (s : RegState)
      (text : String) (s' : RegState),
      compileInputs ps s = .ok (text, s') → GoodTrace s → GoodTrace s' := by
  intro ps
  induction ps with
  | nil =>
    intro s text s' h hT
    simp only [compileInputs, Except.ok.injEq, Prod.mk.injEq] at h
    rw [← h.2]
    exact hT
  | cons hd rest ih =>
    obtain ⟨pat, t, vis⟩ := hd
    intro s text s' h hT
    simp only [compileInputs] at h
    cases hil : toAleoInputLine pat t vis s with
    | error e1 => simp [hil, exceptBind_err] at h
    | ok p =>
      obtain ⟨line, s1⟩ := p
      simp only [hil, exceptBind_ok] at h
      cases hrest : compileInputs rest s1 with
      | error e2 => simp [hrest, exceptBind_err] at h
      | ok q =>
        obtain ⟨restText, s2⟩ := q
        simp only [hrest, exceptBind_ok, Except.ok.injEq, Prod.mk.injEq] at h
        rw [← h.2]
        exact ih s1 restText s2 hrest
          (toAleoInputLine_goodTrace pat t vis s line s1 hil hT)

/-- The names bound by the identifier patterns of a parameter list, in
order. -/
def paramNames (ps : List (Pattern × UnresolvedType × AbiFEType)) :
    List String :=
  ps.filterMap (fun x => match x.1 with
    | Pattern.Identifier n => some n
    | _ => none)

/-- Computation of `paramNames` on a leading identifier pattern. -/
theorem paramNames_cons_ident (n : String) (t : UnresolvedType)
    (vis : AbiFEType) (rest : List (Pattern × UnresolvedType × AbiFEType)) :
    paramNames ((Pattern.Identifier n, t, vis) :: rest) =
      n :: paramNames rest := by
  simp [paramNames]

/-- Processing the input parameters from a state whose registry has only
named entries, with parameter names distinct and fresh, keeps every entry
named, keeps the last entry holding the newest register, and grows the
registry by exactly one entry per parameter. -/
theorem compileInputs_inv :
    ∀ (ps : List (Pattern × UnresolvedType × AbiFEType)) (s : RegState)
      (text : String) (s' : RegState),
      compileInputs ps s = .ok (text, s') →
      GoodTrace s →
      (∀ p ∈ s.registry, p.1 ≠ none) →
      LastNewest s →
      (∀ n ∈ paramNames ps, indexMapContains s.registry (some n) = false) →
      (paramNames ps).Nodup →
      GoodTrace s' ∧ (∀ p ∈ s'.registry, p.1 ≠ none) ∧ LastNewest s' ∧
        s'.registry.length = s.registry.length + ps.length := by
  intro ps
  induction ps with
  | nil =>
    intro s text s' h hT hN hL hF hD
    simp only [compileInputs, Except.ok.injEq, Prod.mk.injEq] at h
    rw [← h.2]
    exact ⟨hT, hN, hL, by simp⟩
  | cons hd rest ih =>
    obtain ⟨pat, t, vis⟩ := hd
    intro s text s' h hT hN hL hF hD
    simp only [compileInputs] at h
    cases hil : toAleoInputLine pat t vis s with
    | error e1 => simp [hil, exceptBind_err] at h
    | ok p =>
      obtain ⟨line, s1⟩ := p
      simp only [hil, exceptBind_ok] at h
      cases hrest : compileInputs rest s1 with
      | error e2 => simp [hrest, exceptBind_err] at h
      | ok q =>
        obtain ⟨restText, s2⟩ := q
        simp only [hrest, exceptBind_ok, Except.ok.injEq, Prod.mk.injEq] at h
        cases pat with
        | Identifier n =>
          simp only [toAleoInputLine] at hil
          cases ht : toAleoType t with
          | error e3 => simp [ht, exceptBind_err] at hil
          | ok typeText =>
            simp only [ht, exceptBind_ok, Except.ok.injEq, Prod.mk.injEq]
              at hil
            have hname : n ∈ paramNames ((Pattern.Identifier n, t, vis) :: rest) := by
              rw [paramNames_cons_ident]
              exact List.mem_cons_self _ _
            have hcontains : indexMapContains s.registry (some n) = false :=
              hF n hname
            have hs1 : s1 = ⟨s.count + 1,
                s.registry ++ [(some n, toAleoRegister s.count)],
                s.allocs ++ [toAleoRegister s.count]⟩ := by
              rw [← hil.2, indexMapInsert_of_not_contains _ _ _ hcontains]
            have hDrest : (paramNames rest).Nodup := by
              rw [paramNames_cons_ident] at hD
              exact hD.of_cons
            have hnotmem : n ∉ paramNames rest := by
              rw [paramNames_cons_ident] at hD
              exact (List.nodup_cons.mp hD).1
            have hT1 : GoodTrace s1 := by
              rw [hs1]
              simp only [GoodTrace, List.range_succ, List.map_append,
                List.map_cons, List.map_nil]
              rw [← hT]
            have hN1 : ∀ p ∈ s1.registry, p.1 ≠ none := by
              rw [hs1]
              intro p hp
              rcases List.mem_append.mp hp with h1 | h2
              · exact hN p h1
              · rw [List.mem_singleton.mp h2]
                simp
            have hL1 : LastNewest s1 := by
              rw [hs1]
              simp [LastNewest, List.getLast?_concat]
            have hF1 : ∀ n' ∈ paramNames rest,
                indexMapContains s1.registry (some n') = false := by
              intro n' hn'
              rw [hs1]
              rw [indexMapContains_eq_false_iff]
              intro p hp
              rcases List.mem_append.mp hp with h1 | h2
              · exact (indexMapContains_eq_false_iff _ _).mp
                  (hF n' (by rw [paramNames_cons_ident]; exact List.mem_cons_of_mem _ hn')) p h1
              · rw [List.mem_singleton.mp h2]
                simp only [Option.some.injEq, ne_eq]
                intro hEq
                exact hnotmem (hEq ▸ hn')
            obtain ⟨hT2, hN2, hL2, hlen2⟩ :=
              ih s1 restText s2 hrest hT1 hN1 hL1 hF1 hDrest
            rw [← h.2]
            refine ⟨hT2, hN2, hL2, ?_⟩
            have hlen1 : s1.registry.length = s.registry.length + 1 := by
              rw [hs1]
              simp
            rw [hlen2, hlen1]
            simp only [List.length_cons]
            omega
        | Mutable => simp [toAleoInputLine] at hil
        | Tuple => simp [toAleoInputLine] at hil
        | Struct => simp [toAleoInputLine] at hil

/-! ### The function-level master lemma -/

/-- Lowering a function with distinctly named parameters succeeds only in a
final state satisfying the body invariant, and the emitted text ends with
one `output` line referencing the register held by the registry's last
entry, which is the most recently allocated register. -/
theorem compileFunction_spec (f : NoirFunction) (text : String)
    (s' : RegState) (hD : (paramNames f.parameters).Nodup)
    (h : compileFunction f = .ok (text, s')) :
    BodyInv f.parameters.length s' ∧
    ∃ (pre : String) (nm : Option String) (register outputType : String),
      s'.registry.getLast? = some (nm, register) ∧
      s'.allocs.getLast? = some register ∧
      toAleoType f.returnType = .ok outputType ∧
      text = pre ++ "\toutput " ++ register ++ " as " ++ outputType ++ "." ++
        toAleoVisibility f.returnVisibility ++ ";\n" := by
  rw [compileFunction_eq_fwd] at h
  simp only [compileFunctionFwd] at h
  cases hI : compileInputs f.parameters ⟨0, [], []⟩ with
  | error e1 => simp [hI, exceptBind_err] at h
  | ok p =>
    obtain ⟨inputText, s1⟩ := p
    simp only [hI, exceptBind_ok] at h
    cases hB : compileStatementsFwd f.body s1 "" with
    | error e2 => simp [hB, exceptBind_err] at h
    | ok q =>
      obtain ⟨bodyText, s2⟩ := q
      simp only [hB, exceptBind_ok] at h
      cases ht : toAleoType f.returnType with
      | error e3 => simp [ht, exceptBind_err] at h
      | ok outputType =>
        simp only [ht, exceptBind_ok] at h
        cases hg : s2.registry.getLast? with
        | none => simp [hg] at h
        | some pr =>
          obtain ⟨nm, register⟩ := pr
          simp only [hg, Except.ok.injEq, Prod.mk.injEq] at h
          obtain ⟨htext, hs'⟩ := h
          obtain ⟨hT1, hN1, hL1, hlen1⟩ :=
            compileInputs_inv f.parameters ⟨0, [], []⟩ inputText s1 hI
              (by simp [GoodTrace]) (by simp) (by simp [LastNewest])
              (fun n _ => rfl) hD
          have hInv1 : BodyInv f.parameters.length s1 := by
            refine ⟨hT1, ?_, hL1, Or.inl ⟨by simpa using hlen1, ?_⟩⟩
            · intro p hp
              exact hN1 p ((List.dropLast_prefix s1.registry).subset hp)
            · rw [indexMapContains_eq_false_iff]
              exact hN1
          have hInv2 : BodyInv f.parameters.length s2 :=
            compileStatementsFwd_preserves (BodyInv f.parameters.length)
              (fun s hs => anonAlloc_bodyInv f.parameters.length s hs)
              f.body s1 "" bodyText s2 hB hInv1
          rw [← hs']
          refine ⟨hInv2, toAleoFunctionDefinition f.name ++ "\n" ++ inputText
            ++ bodyText, nm, register, outputType, hg, ?_, rfl, htext.symm⟩
          have hL2 := hInv2.2.2.1
          rw [LastNewest, hg] at hL2
          exact hL2.symm

/-- At most one anonymous entry when all but the last entry are named. -/
theorem countP_anon_le_one (m : List (Option String × String))
    (h : ∀ p ∈ m.dropLast, p.1 ≠ none) :
    m.countP (fun p => p.1 = none) ≤ 1 := by
  rcases List.eq_nil_or_concat m with rfl | ⟨L, b, rfl⟩
  · simp
  · rw [List.concat_eq_append] at h ⊢
    rw [List.countP_append]
    have hL : L.countP (fun p => p.1 = none) = 0 := by
      rw [List.countP_eq_zero]
      intro a ha
      simp only [decide_eq_true_eq]
      exact h a (by rwa [List.dropLast_concat])
    rw [hL]
    simp only [List.countP_cons, List.countP_nil, Nat.zero_add]
    split <;> omega

/-! ### The remaining claims -/

/-- C2: for every function whose lowering succeeds, the allocation trace is
exactly `r0, r1, r2, …` in order: the register produced by the n-th
allocation request (n ≥ 1), whether for a named input parameter or an
anonymous intermediate, is `r<n-1>` — register numbering within one
function is monotonic and gapless under the single shared counter. -/
theorem C2_register_numbering_gapless (f : NoirFunction) (text : String)
    (s' : RegState) (h : compileFunction f = .ok (text, s')) :
    s'.allocs = (List.range s'.count).map toAleoRegister ∧
    ∀ n : Nat, 1 ≤ n → n ≤ s'.allocs.length →
      s'.allocs[n - 1]? = some (toAleoRegister (n - 1)) := by
  rw [compileFunction_eq_fwd] at h
  simp only [compileFunctionFwd] at h
  cases hI : compileInputs f.parameters ⟨0, [], []⟩ with
  | error e1 => simp [hI, exceptBind_err] at h
  | ok p =>
    obtain ⟨inputText, s1⟩ := p
    simp only [hI, exceptBind_ok] at h
    cases hB : compileStatementsFwd f.body s1 "" with
    | error e2 => simp [hB, exceptBind_err] at h
    | ok q =>
      obtain ⟨bodyText, s2⟩ := q
      simp only [hB, exceptBind_ok] at h
      cases ht : toAleoType f.returnType with
      | error e3 => simp [ht, exceptBind_err] at h
      | ok outputType =>
        simp only [ht, exceptBind_ok] at h
        cases hg : s2.registry.getLast? with
        | none => simp [hg] at h
        | some pr =>
          obtain ⟨nm, register⟩ := pr
          simp only [hg, Except.ok.injEq, Prod.mk.injEq] at h
          have hT2 : GoodTrace s2 :=
            compileStatementsFwd_preserves GoodTrace anonAllocStep_goodTrace
              f.body s1 "" bodyText s2 hB
              (compileInputs_goodTrace f.parameters ⟨0, [], []⟩ inputText s1 hI
                (by simp [GoodTrace]))
          rw [← h.2]
          refine ⟨hT2, ?_⟩
          intro n h1 h2
          have hlen : s2.allocs.length = s2.count := by
            rw [hT2]
            simp
          have hlt : n - 1 < s2.count := by
            rw [← hlen]
            omega
          rw [hT2, List.getElem?_map, List.getElem?_range hlt]
          rfl

/-- Witness for C2 at the concrete `add` function: the trace is
`[r0, r1, r2]` and the third allocation produced `r2`. -/
theorem C2_register_numbering_gapless_witness :
    addFinalState.allocs = (List.range addFinalState.count).map toAleoRegister ∧
    addFinalState.allocs[2]? = some (toAleoRegister 2) := by
  obtain ⟨h1, h2⟩ := C2_register_numbering_gapless addFunction _ addFinalState
    addFunction_eval
  exact ⟨h1, h2 3 (by decide) (by decide)⟩

/-- The degenerate function with no parameters and an empty body: the only
shape whose successful input and body phases allocate nothing. -/
def emptyFunction : NoirFunction where
  name := "f"
  parameters := []
  body := []
  returnType := .Integer .Unsigned 32
  returnVisibility := .Private

/-- C8: (i) the body loop — reverse then pop from the back — processes the
statements of the body in source order (front first); (ii) after all
statements, for a function with distinctly named parameters, exactly one
`output` line is appended, referencing the most recently allocated
register (the last entry of the allocation trace); (iii) a function whose
whole lowering allocates no register fails with `EmptyRegistry`. -/
theorem C8_source_order_and_output_register :
    (∀ (body : List Statement) (s : RegState) (acc : String),
      compileStatementsPop body.reverse s acc =
        compileStatementsFwd body s acc) ∧
    (∀ (f : NoirFunction) (text : String) (s' : RegState),
      (paramNames f.parameters).Nodup →
      compileFunction f = .ok (text, s') →
      ∃ (pre register outputType : String),
        s'.allocs.getLast? = some register ∧
        text = pre ++ "\toutput " ++ register ++ " as " ++ outputType ++ "." ++
          toAleoVisibility f.returnVisibility ++ ";\n") ∧
    (∀ (f : NoirFunction) (inputText bodyText : String) (s1 s2 : RegState)
        (outputType : String),
      compileInputs f.parameters ⟨0, [], []⟩ = .ok (inputText, s1) →
      compileStatementsPop f.body.reverse s1 "" = .ok (bodyText, s2) →
      toAleoType f.returnType = .ok outputType →
      s2.registry = [] →
      compileFunction f = .error .EmptyRegistry) := by
  refine ⟨compileStatementsPop_reverse, ?_, ?_⟩
  · intro f text s' hD h
    obtain ⟨-, pre, nm, register, outputType, -, hreg, -, htext⟩ :=
      compileFunction_spec f text s' hD h
    exact ⟨pre, register, outputType, hreg, htext⟩
  · intro f inputText bodyText s1 s2 outputType hI hB ht hreg
    simp only [compileFunction, hI, exceptBind_ok, hB, ht, hreg,
      List.getLast?_nil]

/-- Witness for C8: part (ii) applied to the concrete `add` function, and
part (iii) applied to the no-parameter empty-body function. -/
theorem C8_source_order_and_output_register_witness :
    (∃ (pre register outputType : String),
      addFinalState.allocs.getLast? = some register ∧
      ("function add:\n" ++
        ("\tinput r0 as u32.private;\n" ++
         "\tinput r1 as u32.private;\n" ++
         "\tadd r0 r1 into r2;\n" ++
         "\toutput r2 as u32.private;\n")) =
        pre ++ "\toutput " ++ register ++ " as " ++ outputType ++ "." ++
          toAleoVisibility addFunction.returnVisibility ++ ";\n") ∧
    compileFunction emptyFunction = .error .EmptyRegistry := by
  refine ⟨?_, ?_⟩
  · exact C8_source_order_and_output_register.2.1 addFunction _ addFinalState
      (by decide) addFunction_eval
  · exact C8_source_order_and_output_register.2.2 emptyFunction "" ""
      ⟨0, [], []⟩ ⟨0, [], []⟩ "u32" rfl
      (compileStatementsPop_nil ⟨0, [], []⟩ "") rfl rfl

/-- C10: (i) inserting under the anonymous key while it is already present
(and, as during any body lowering, in final position) replaces that entry's
value in place — same entries before it, same position, new value — rather
than appending; (ii) consequently, for every function with distinctly named
parameters whose lowering succeeds, the final registry holds at most one
anonymous entry and its size is the number of parameters plus at most
one, however many anonymous intermediate registers were allocated. -/
theorem C10_anonymous_entry_replaced_in_place :
    (∀ (m : List (Option String × String)) (v : String),
      (∀ p ∈ m.dropLast, p.1 ≠ none) →
      indexMapContains m none = true →
      ∃ (m0 : List (Option String × String)) (w : String),
        m = m0 ++ [(none, w)] ∧
        indexMapInsert m none v = m0 ++ [(none, v)]) ∧
    (∀ (f : NoirFunction) (text : String) (s' : RegState),
      (paramNames f.parameters).Nodup →
      compileFunction f = .ok (text, s') →
      s'.registry.countP (fun p => p.1 = none) ≤ 1 ∧
      (s'.registry.length = f.parameters.length ∨
       s'.registry.length = f.parameters.length + 1)) := by
  refine ⟨indexMapInsert_anon_in_place, ?_⟩
  intro f text s' hD h
  obtain ⟨⟨-, hA, -, hS⟩, -⟩ := compileFunction_spec f text s' hD h
  refine ⟨countP_anon_le_one s'.registry hA, ?_⟩
  rcases hS with ⟨h1, -⟩ | ⟨h1, -⟩
  · exact Or.inl h1
  · exact Or.inr h1

/-- Witness for C10: the in-place replacement at a concrete two-entry
registry, and the size bound at the concrete `add` function (two named
parameters, one anonymous entry, three registry entries). -/
theorem C10_anonymous_entry_replaced_in_place_witness :
    (∃ (m0 : List (Option String × String)) (w : String),
      [(some "a", "r0"), ((none : Option String), "r2")] = m0 ++ [(none, w)] ∧
      indexMapInsert [(some "a", "r0"), (none, "r2")] none "r3" =
        m0 ++ [(none, "r3")]) ∧
    (addFinalState.registry.countP (fun p => p.1 = none) ≤ 1 ∧
      (addFinalState.registry.length = addFunction.parameters.length ∨
       addFinalState.registry.length = addFunction.parameters.length + 1)) :=
  ⟨C10_anonymous_entry_replaced_in_place.1
      [(some "a", "r0"), (none, "r2")] "r3" (by decide) (by decide),
   C10_anonymous_entry_replaced_in_place.2 addFunction _ addFinalState
      (by decide) addFunction_eval⟩

end NoirToAleo
